import Mathlib

/-!
Shallow embedding of the `textual-tetris` engine (files `textris.py` and
`textris2.py`; the two variants share the board logic verbatim, and the
embedding follows `textris.py`, which additionally implements game-over
handling).  Pieces are hex-coded shapes in a 4x4 frame, the board is a
grid of optional color tags, and the application state machine drives
movement, locking, line clearing, scoring and game over.
-/

namespace Textris

/-- The 7 tetromino kinds, keys of the `PIECES` table. -/
inductive PieceType
  | O | I | J | L | T | Z | S
deriving DecidableEq, Fintype

/-- `PIECES[t]["color"]`. -/
def piece_color : PieceType → String
  | .O => "yellow"
  | .I => "cyan"
  | .J => "blue"
  | .L => "bright_yellow"
  | .T => "magenta"
  | .Z => "red"
  | .S => "green"

/-- `PIECES[t]["codes"]`: the 4 rotation states as hex code strings. -/
def piece_codes : PieceType → List String
  | .O => ["56a9", "6a95", "a956", "956a"]
  | .I => ["4567", "26ae", "ba98", "d951"]
  | .J => ["0456", "2159", "a654", "8951"]
  | .L => ["2654", "a951", "8456", "0159"]
  | .T => ["1456", "6159", "9654", "4951"]
  | .Z => ["0156", "2659", "a954", "8451"]
  | .S => ["1254", "a651", "8956", "0459"]

/-- Python `int(char, 16)` restricted to the lowercase hex digits used in
the shape table. -/
def hexVal (c : Char) : Nat :=
  if c.isDigit then c.toNat - 48 else c.toNat - 87

/-- `TetrisPiece.shape` body: expand a hex code into `(x, y)` coords in a
4x4 grid; `y, x = divmod(value, 4)`, appended as `(x, y)`. -/
def hex_code_to_coords (code : String) : List (Nat × Nat) :=
  code.toList.map fun c => (hexVal c % 4, hexVal c / 4)

/-- `TetrisPiece`: kind, rotation deque of hex codes (head = active code),
and anchor position on the board. -/
structure TetrisPiece where
  type : PieceType
  codes : List String
  x : Int
  y : Int
deriving DecidableEq

/-- `TetrisPiece.__init__`: rotation deque starts at the table order,
anchor at the spawn point `x = 4, y = 0`. -/
def TetrisPiece.new (t : PieceType) : TetrisPiece :=
  { type := t, codes := piece_codes t, x := 4, y := 0 }

/-- `self.code`: the active hex code, kept equal to `codes[0]`. -/
def TetrisPiece.code (p : TetrisPiece) : String := p.codes.headD ""

/-- `TetrisPiece.shape`: the active rotation state's relative coords. -/
def TetrisPiece.shape (p : TetrisPiece) : List (Nat × Nat) :=
  hex_code_to_coords p.code

/-- `TetrisPiece.blocks`: absolute board coords occupied by the piece. -/
def TetrisPiece.blocks (p : TetrisPiece) : List (Int × Int) :=
  p.shape.map fun q => (p.x + (q.1 : Int), p.y + (q.2 : Int))

/-- `TetrisPiece.rotate`: `codes.rotate(-1)` on the deque, head to tail. -/
def TetrisPiece.rotate (p : TetrisPiece) : TetrisPiece :=
  { p with codes := p.codes.rotate 1 }

/-- `TetrisPiece.undo_rotate`: `codes.rotate(1)` on the deque. -/
def TetrisPiece.undo_rotate (p : TetrisPiece) : TetrisPiece :=
  { p with codes := p.codes.rotate (p.codes.length - 1) }

/-- The in-place `x += dx; y += dy` of `move_piece`, as a value. -/
def TetrisPiece.moved (p : TetrisPiece) (dx dy : Int) : TetrisPiece :=
  { p with x := p.x + dx, y := p.y + dy }

/-- A board cell: `0` (empty) or a color tag string. -/
abbrev Cell := Option String

abbrev Board := List (List Cell)

/-- A row of `width` empty cells. -/
def empty_row (w : Nat) : List Cell := List.replicate w none

/-- The `height x width` all-empty grid built by `TetrisBoard.__init__`. -/
def empty_board (w h : Nat) : Board := List.replicate h (empty_row w)

/-- Read `board[y][x]` (empty when out of range; the engine only reads
in-range cells). -/
def getCell (b : Board) (y x : Nat) : Cell := (b.getD y []).getD x none

/-- Write `board[y][x] = v` (no-op when out of range; the engine only
writes in-range cells). -/
def setCell (b : Board) (y x : Nat) (v : Cell) : Board :=
  b.set y ((b.getD y []).set x v)

/-- `TetrisBoard.check_collision`: some absolute cell is out of the
horizontal bounds, at or below the floor, or overlaps a settled cell
(the occupancy test applies only to cells with `y >= 0`). -/
def check_collision (w h : Nat) (b : Board) (p : TetrisPiece) : Bool :=
  p.blocks.any fun q =>
    decide (q.1 < 0) || decide ((w : Int) ≤ q.1) || decide ((h : Int) ≤ q.2) ||
      (decide (0 ≤ q.2) && (getCell b q.2.toNat q.1.toNat).isSome)

/-- The cell-writing loop of `TetrisBoard.lock_piece` (lines writing
`self.board[board_y][board_x] = self.current_piece.color`). -/
def lock_cells (w h : Nat) (color : String) (b : Board) (qs : List (Int × Int)) : Board :=
  qs.foldl (fun acc q =>
    if 0 ≤ q.1 ∧ q.1 < (w : Int) ∧ 0 ≤ q.2 ∧ q.2 < (h : Int) then
      setCell acc q.2.toNat q.1.toNat (some color)
    else acc) b

/-- `lock_piece`'s board mutation: write each in-bounds block of the
piece with its color tag. -/
def lock_piece_board (w h : Nat) (b : Board) (p : TetrisPiece) : Board :=
  lock_cells w h (piece_color p.type) b p.blocks

/-- Python `all(row)`: every cell truthy, i.e. non-empty. -/
def row_full (row : List Cell) : Bool := row.all fun c => c.isSome

/-- `TetrisBoard._clear_full_lines`: drop full rows, prepend that many
empty rows, return the new grid and the cleared count. -/
def clear_full_lines (w h : Nat) (b : Board) : Board × Nat :=
  let new_rows := b.filter fun row => !(row_full row)
  let cleared := h - new_rows.length
  if cleared ≠ 0 then (List.replicate cleared (empty_row w) ++ new_rows, cleared)
  else (new_rows, cleared)

/-- The engine-relevant state of `TetrisApp` together with its
`TetrisBoard`: grid dimensions and contents, current and queued piece,
score/level/progress counters, the automatic drop interval (in
milliseconds), and the game-over flag.  Randomness (Python
`random.choice` in `TetrisPiece.__init__`) is passed in explicitly as a
`PieceType` argument wherever the code draws a fresh piece. -/
structure GameState where
  board_width : Nat
  board_height : Nat
  board : Board
  current : TetrisPiece
  next_piece : TetrisPiece
  score : Nat
  level : Nat
  lines_cleared : Nat
  drop_interval : Int
  game_over : Bool
deriving DecidableEq

/-- `self.lines_per_level = 10`, set once and never changed. -/
def lines_per_level : Nat := 10

/-- `{1: 100, 2: 300, 3: 500, 4: 800}.get(cleared, cleared * 200)`. -/
def line_score (c : Nat) : Nat :=
  if c = 1 then 100
  else if c = 2 then 300
  else if c = 3 then 500
  else if c = 4 then 800
  else c * 200

/-- `max(0.1, 1.0 - (level - 1) * 0.1)` seconds, in milliseconds. -/
def drop_interval_for (level : Nat) : Int :=
  max 100 (1000 - ((level : Int) - 1) * 100)

/-- `TetrisApp.on_piece_locked`: score the lock, recompute the level and,
if it changed, the drop interval. -/
def on_piece_locked (s : GameState) (cleared : Nat) : GameState :=
  let s1 := if cleared ≠ 0 then
      { s with score := s.score + line_score cleared * s.level,
               lines_cleared := s.lines_cleared + cleared }
    else { s with score := s.score + 10 }
  let new_level := max 1 (1 + s1.lines_cleared / lines_per_level)
  if new_level ≠ s1.level then
    { s1 with level := new_level, drop_interval := drop_interval_for new_level }
  else s1

/-- `TetrisApp.spawn_next_piece`: promote the queued piece; if it
collides, game over (board untouched), otherwise queue a fresh piece. -/
def spawn_next_piece (s : GameState) (fresh : PieceType) : GameState :=
  if s.game_over then s
  else
    let s1 := { s with current := s.next_piece }
    if check_collision s1.board_width s1.board_height s1.board s1.current then
      { s1 with game_over := true }
    else { s1 with next_piece := TetrisPiece.new fresh }

/-- `TetrisBoard.lock_piece`: write the piece into the grid, clear full
lines, notify scoring, and spawn the queued piece. -/
def lock_piece (s : GameState) (fresh : PieceType) : GameState :=
  let b1 := lock_piece_board s.board_width s.board_height s.board s.current
  let r := clear_full_lines s.board_width s.board_height b1
  let s1 := on_piece_locked { s with board := r.1 } r.2
  spawn_next_piece s1 fresh

/-- `TetrisBoard.move_piece`: shift the piece; on collision revert, and
when the blocked move was downward (`dy > 0`) lock the piece.  Returns
the new state and the method's boolean result. -/
def move_piece (s : GameState) (fresh : PieceType) (dx dy : Int) : GameState × Bool :=
  let p1 := s.current.moved dx dy
  if check_collision s.board_width s.board_height s.board p1 then
    (if dy > 0 then lock_piece s fresh else s, false)
  else ({ s with current := p1 }, true)

/-- `TetrisBoard.rotate_piece`: rotate; on collision undo the rotation. -/
def rotate_piece (s : GameState) : GameState × Bool :=
  let p1 := s.current.rotate
  if check_collision s.board_width s.board_height s.board p1 then
    ({ s with current := p1.undo_rotate }, false)
  else ({ s with current := p1 }, true)

/-- `TetrisApp.action_move_left` (guarded by `game_over`). -/
def action_move_left (s : GameState) (fresh : PieceType) : GameState :=
  if s.game_over then s else (move_piece s fresh (-1) 0).1

/-- `TetrisApp.action_move_right` (guarded by `game_over`). -/
def action_move_right (s : GameState) (fresh : PieceType) : GameState :=
  if s.game_over then s else (move_piece s fresh 1 0).1

/-- `TetrisApp.action_move_down`, identical to the timer tick
`TetrisApp.auto_drop` (both guarded by `game_over`). -/
def action_move_down (s : GameState) (fresh : PieceType) : GameState :=
  if s.game_over then s else (move_piece s fresh 0 1).1

/-- `TetrisApp.action_rotate` (guarded by `game_over`). -/
def action_rotate (s : GameState) : GameState :=
  if s.game_over then s else (rotate_piece s).1

/-- The `while self.board.move_piece(0, 1): pass` loop of
`action_hard_drop`, with explicit fuel.  The loop in the source is
unbounded; the hard-drop theorem below shows that from a non-colliding
position the piece locks strictly before `board_height + 1` iterations,
so with that fuel the function computes exactly what the source's loop
does. -/
def hard_drop_loop : Nat → GameState → PieceType → GameState
  | 0, s, _ => s
  | fuel + 1, s, fresh =>
    let r := move_piece s fresh 0 1
    if r.2 then hard_drop_loop fuel r.1 fresh else r.1

/-- `TetrisApp.action_hard_drop` (guarded by `game_over`). -/
def action_hard_drop (s : GameState) (fresh : PieceType) : GameState :=
  if s.game_over then s else hard_drop_loop (s.board_height + 1) s fresh

/-- The freshly initialized game: 10x20 empty board, both piece slots
primed with fresh pieces, score 0, level 1, 1000 ms drop interval,
running. -/
def init_state (t1 t2 : PieceType) : GameState :=
  { board_width := 10
  , board_height := 20
  , board := empty_board 10 20
  , current := TetrisPiece.new t1
  , next_piece := TetrisPiece.new t2
  , score := 0
  , level := 1
  , lines_cleared := 0
  , drop_interval := 1000
  , game_over := false }

/-- Session states reachable from initialization by the engine's
mutating entry points (the timer tick is `action_move_down`). -/
inductive Reachable : GameState → Prop
  | init (t1 t2 : PieceType) : Reachable (init_state t1 t2)
  | move_left (s : GameState) (f : PieceType) :
      Reachable s → Reachable (action_move_left s f)
  | move_right (s : GameState) (f : PieceType) :
      Reachable s → Reachable (action_move_right s f)
  | move_down (s : GameState) (f : PieceType) :
      Reachable s → Reachable (action_move_down s f)
  | rot (s : GameState) :
      Reachable s → Reachable (action_rotate s)
  | hard_drop (s : GameState) (f : PieceType) :
      Reachable s → Reachable (action_hard_drop s f)

/-! ## Basic lemmas -/

lemma check_collision_eq_true_iff (w h : Nat) (b : Board) (p : TetrisPiece) :
    check_collision w h b p = true ↔
      ∃ q ∈ p.blocks, q.1 < 0 ∨ (w : Int) ≤ q.1 ∨ (h : Int) ≤ q.2 ∨
        (0 ≤ q.2 ∧ (getCell b q.2.toNat q.1.toNat).isSome = true) := by
  simp [check_collision, List.any_eq_true, Bool.or_eq_true, Bool.and_eq_true,
    decide_eq_true_iff, or_assoc]

lemma getCell_empty (w h y x : Nat) : getCell (empty_board w h) y x = none := by
  unfold getCell empty_board empty_row
  have hrow : (List.replicate h (List.replicate w (none : Cell))).getD y [] =
      if y < h then List.replicate w (none : Cell) else [] := by
    rcases Nat.lt_or_ge y h with hy | hy
    · simp [List.getD_eq_getElem?_getD, List.getElem?_replicate, hy]
    · simp [List.getD_eq_getElem?_getD, List.getElem?_replicate, Nat.not_lt.mpr hy]
  rw [hrow]
  split
  · rcases Nat.lt_or_ge x w with hx | hx
    · simp [List.getD_eq_getElem?_getD, List.getElem?_replicate, hx]
    · simp [List.getD_eq_getElem?_getD, List.getElem?_replicate, Nat.not_lt.mpr hx]
  · simp [List.getD_eq_getElem?_getD]

/-! ## C1: collision predicate -/

/-- C1: `check_collision` is true iff some absolute cell of the piece has
`x < 0`, `x ≥ width`, `y ≥ height`, or (`y ≥ 0` and the board cell at
`(x, y)` is occupied); cells with `y < 0` are exempt from the occupancy
test, so on an empty board it is false exactly when every cell satisfies
`0 ≤ x < width` and `y < height`. -/
theorem check_collision_spec (w h : Nat) (b : Board) (p : TetrisPiece) :
    (check_collision w h b p = true ↔
      ∃ q ∈ p.blocks, q.1 < 0 ∨ (w : Int) ≤ q.1 ∨ (h : Int) ≤ q.2 ∨
        (0 ≤ q.2 ∧ (getCell b q.2.toNat q.1.toNat).isSome = true)) ∧
    (check_collision w h (empty_board w h) p = false ↔
      ∀ q ∈ p.blocks, 0 ≤ q.1 ∧ q.1 < (w : Int) ∧ q.2 < (h : Int)) := by
  refine ⟨check_collision_eq_true_iff w h b p, ?_⟩
  rw [← Bool.not_eq_true, check_collision_eq_true_iff]
  constructor
  · intro hno q hq
    have h1 : ¬(q.1 < 0 ∨ (w : Int) ≤ q.1 ∨ (h : Int) ≤ q.2 ∨
        (0 ≤ q.2 ∧ (getCell (empty_board w h) q.2.toNat q.1.toNat).isSome = true)) := by
      intro hc
      exact hno ⟨q, hq, hc⟩
    push_neg at h1
    exact ⟨h1.1, h1.2.1, h1.2.2.1⟩
  · rintro hall ⟨q, hq, hc⟩
    obtain ⟨h1, h2, h3⟩ := hall q hq
    rcases hc with hc | hc | hc | hc
    · omega
    · omega
    · omega
    · rw [getCell_empty] at hc
      simp at hc

/-- Witness: a fresh O piece on the empty 10x20 board does not collide,
via the second component of `check_collision_spec`. -/
theorem check_collision_spec_witness :
    check_collision 10 20 (empty_board 10 20) (TetrisPiece.new PieceType.O) = false :=
  (check_collision_spec 10 20 (empty_board 10 20) (TetrisPiece.new PieceType.O)).2.mpr
    (by decide)

/-! ## C8: shape table invariant -/

/-- C8: for every piece kind and every rotation index 0-3, the decoded
rotation state consists of exactly 4 distinct coordinate pairs `(x, y)`
with `0 ≤ x ≤ 3` and `0 ≤ y ≤ 3`. -/
theorem shape_table_spec (t : PieceType) (r : Fin 4) :
    (hex_code_to_coords ((piece_codes t).getD r.val "")).length = 4 ∧
    (hex_code_to_coords ((piece_codes t).getD r.val "")).Nodup ∧
    ∀ q ∈ hex_code_to_coords ((piece_codes t).getD r.val ""), q.1 ≤ 3 ∧ q.2 ≤ 3 := by
  revert t r
  decide

/-- Witness: the first rotation state of the O piece decodes to 4 cells. -/
theorem shape_table_spec_witness :
    (hex_code_to_coords ((piece_codes PieceType.O).getD (0 : Fin 4).val "")).length = 4 :=
  (shape_table_spec PieceType.O 0).1

/-! ## C2: line clearing -/

lemma length_filter_not_full (b : Board) :
    (b.filter fun row => !(row_full row)).length =
      b.length - b.countP (fun row => row_full row) := by
  induction b with
  | nil => simp
  | cons r rs ih =>
    have hle := List.countP_le_length (p := fun row => row_full row) (l := rs)
    by_cases hr : row_full r
    · simp only [List.filter_cons, List.countP_cons, hr, ih]
      simp
      omega
    · simp only [List.filter_cons, List.countP_cons, hr, ih]
      simp
      omega

lemma clear_full_lines_eq (w h : Nat) (b : Board) :
    clear_full_lines w h b =
      (List.replicate (h - (b.filter fun row => !(row_full row)).length) (empty_row w) ++
          b.filter (fun row => !(row_full row)),
        h - (b.filter fun row => !(row_full row)).length) := by
  simp only [clear_full_lines]
  split
  · rfl
  · rename_i hz
    rw [not_ne_iff] at hz
    rw [hz]
    simp

/-- C2: `_clear_full_lines` removes exactly the full rows all at once,
prepends that many empty rows, keeps the remaining rows in order, leaves
the height and every row width unchanged, and returns the number of rows
removed. -/
theorem clear_full_lines_spec (w h : Nat) (b : Board)
    (hh : b.length = h) (hw : ∀ r ∈ b, r.length = w) :
    (clear_full_lines w h b).2 = b.countP (fun row => row_full row) ∧
    (clear_full_lines w h b).1 =
      List.replicate ((clear_full_lines w h b).2) (empty_row w) ++
        b.filter (fun row => !(row_full row)) ∧
    (clear_full_lines w h b).1.length = h ∧
    ∀ r ∈ (clear_full_lines w h b).1, r.length = w := by
  have hlen := length_filter_not_full b
  have hle := List.countP_le_length (p := fun row => row_full row) (l := b)
  rw [clear_full_lines_eq]
  refine ⟨by simp; omega, rfl, by simp; omega, ?_⟩
  intro r hr
  rcases List.mem_append.mp hr with hr | hr
  · rw [List.eq_of_mem_replicate hr]
    simp [empty_row]
  · exact hw r (List.mem_of_mem_filter hr)

/-- A 2x3 board whose middle row is full, for the line-clear witness. -/
def clear_witness_board : Board :=
  [[none, none], [some "red", some "red"], [none, some "red"]]

/-- Witness: on a 2-wide, 3-high board with exactly its middle row full,
`clear_full_lines` reports 1 cleared row, keeps height 3 and width 2. -/
theorem clear_full_lines_spec_witness :
    clear_witness_board.length = 3 ∧ (∀ r ∈ clear_witness_board, r.length = 2) ∧
    ((clear_full_lines 2 3 clear_witness_board).2 =
        clear_witness_board.countP (fun row => row_full row) ∧
      (clear_full_lines 2 3 clear_witness_board).1 =
        List.replicate ((clear_full_lines 2 3 clear_witness_board).2) (empty_row 2) ++
          clear_witness_board.filter (fun row => !(row_full row)) ∧
      (clear_full_lines 2 3 clear_witness_board).1.length = 3 ∧
      ∀ r ∈ (clear_full_lines 2 3 clear_witness_board).1, r.length = 2) :=
  ⟨by decide, by decide,
    clear_full_lines_spec 2 3 clear_witness_board (by decide) (by decide)⟩

/-! ## C3 and C4: scoring and level progression on lock-and-advance -/

/-- The `cleared` value computed inside `lock_piece`. -/
def lock_cleared (s : GameState) : Nat :=
  (clear_full_lines s.board_width s.board_height
    (lock_piece_board s.board_width s.board_height s.board s.current)).2

lemma lock_piece_eq (s : GameState) (fresh : PieceType) :
    lock_piece s fresh =
      spawn_next_piece
        (on_piece_locked
          { s with board := (clear_full_lines s.board_width s.board_height
              (lock_piece_board s.board_width s.board_height s.board s.current)).1 }
          (lock_cleared s))
        fresh := rfl

lemma spawn_next_piece_counters (s : GameState) (f : PieceType) :
    (spawn_next_piece s f).score = s.score ∧ (spawn_next_piece s f).level = s.level ∧
    (spawn_next_piece s f).lines_cleared = s.lines_cleared ∧
    (spawn_next_piece s f).drop_interval = s.drop_interval := by
  simp only [spawn_next_piece]
  split
  · exact ⟨rfl, rfl, rfl, rfl⟩
  · split
    · exact ⟨rfl, rfl, rfl, rfl⟩
    · exact ⟨rfl, rfl, rfl, rfl⟩

lemma on_piece_locked_lines (s : GameState) (c : Nat) :
    (on_piece_locked s c).lines_cleared =
      if c ≠ 0 then s.lines_cleared + c else s.lines_cleared := by
  simp only [on_piece_locked]
  split
  · split <;> rfl
  · split <;> rfl

lemma on_piece_locked_score (s : GameState) (c : Nat) :
    (on_piece_locked s c).score =
      if c ≠ 0 then s.score + line_score c * s.level else s.score + 10 := by
  simp only [on_piece_locked]
  split
  · split <;> rfl
  · split <;> rfl

lemma on_piece_locked_level (s : GameState) (c : Nat) :
    (on_piece_locked s c).level =
      max 1 (1 + (on_piece_locked s c).lines_cleared / lines_per_level) := by
  simp only [on_piece_locked]
  split
  · split
    · rfl
    · rename_i hz
      rw [not_ne_iff] at hz
      exact hz.symm
  · split
    · rfl
    · rename_i hz
      rw [not_ne_iff] at hz
      exact hz.symm

lemma on_piece_locked_interval (s : GameState) (c : Nat) :
    (on_piece_locked s c).level ≠ s.level →
      (on_piece_locked s c).drop_interval = drop_interval_for ((on_piece_locked s c).level) := by
  simp only [on_piece_locked]
  split
  · split
    · intro _
      rfl
    · intro hne
      exact absurd rfl hne
  · split
    · intro _
      rfl
    · intro hne
      exact absurd rfl hne

/-- C3: on every lock-and-advance, with `cleared` full rows removed: if
`cleared = 0` the score increases by exactly 10 and the line counter is
unchanged; if `cleared > 0` the line counter increases by `cleared` and
the score increases by base x level with base 100/300/500/800 for 1/2/3/4
cleared rows and `cleared * 200` otherwise, at the pre-lock level. -/
theorem scoring_spec (s : GameState) (fresh : PieceType) :
    (lock_cleared s = 0 → (lock_piece s fresh).score = s.score + 10 ∧
      (lock_piece s fresh).lines_cleared = s.lines_cleared) ∧
    (0 < lock_cleared s →
      (lock_piece s fresh).lines_cleared = s.lines_cleared + lock_cleared s) ∧
    (lock_cleared s = 1 → (lock_piece s fresh).score = s.score + 100 * s.level) ∧
    (lock_cleared s = 2 → (lock_piece s fresh).score = s.score + 300 * s.level) ∧
    (lock_cleared s = 3 → (lock_piece s fresh).score = s.score + 500 * s.level) ∧
    (lock_cleared s = 4 → (lock_piece s fresh).score = s.score + 800 * s.level) ∧
    (5 ≤ lock_cleared s →
      (lock_piece s fresh).score = s.score + lock_cleared s * 200 * s.level) := by
  rw [lock_piece_eq]
  obtain ⟨hsc, _, hli, _⟩ := spawn_next_piece_counters
    (on_piece_locked
      { s with board := (clear_full_lines s.board_width s.board_height
          (lock_piece_board s.board_width s.board_height s.board s.current)).1 }
      (lock_cleared s)) fresh
  rw [hsc, hli, on_piece_locked_score, on_piece_locked_lines]
  refine ⟨fun h0 => ?_, fun hpos => ?_, fun h1 => ?_, fun h2 => ?_, fun h3 => ?_,
    fun h4 => ?_, fun h5 => ?_⟩
  · simp [h0]
  · simp [Nat.pos_iff_ne_zero.mp hpos]
  · simp [h1, line_score]
  · simp [h2, line_score]
  · simp [h3, line_score]
  · simp [h4, line_score]
  · have hne : lock_cleared s ≠ 0 := by omega
    have hls : line_score (lock_cleared s) = lock_cleared s * 200 := by
      unfold line_score
      have e1 : lock_cleared s ≠ 1 := by omega
      have e2 : lock_cleared s ≠ 2 := by omega
      have e3 : lock_cleared s ≠ 3 := by omega
      have e4 : lock_cleared s ≠ 4 := by omega
      simp [e1, e2, e3, e4]
    simp [hne, hls]

/-- A 4x2 game where the horizontal I piece is about to complete the
bottom-adjacent row, for the scoring witness. -/
def scoring_witness_state : GameState :=
  { board_width := 4
  , board_height := 2
  , board := [[none, none, none, none], [none, none, none, none]]
  , current := { type := PieceType.I, codes := piece_codes PieceType.I, x := 0, y := 0 }
  , next_piece := TetrisPiece.new PieceType.O
  , score := 0
  , level := 1
  , lines_cleared := 0
  , drop_interval := 1000
  , game_over := false }

/-- Witness: locking the I piece in `scoring_witness_state` clears one
row and scores `100 x level`. -/
theorem scoring_spec_witness :
    lock_cleared scoring_witness_state = 1 ∧
    (lock_piece scoring_witness_state PieceType.O).score =
      scoring_witness_state.score + 100 * scoring_witness_state.level :=
  ⟨by decide, (scoring_spec scoring_witness_state PieceType.O).2.2.1 (by decide)⟩

/-- C4: after every lock-and-advance the level equals
`max(1, 1 + linesCleared / 10)` over the cumulative cleared-line count,
and whenever the level changed the drop interval becomes
`max(100, 1000 - (level - 1) * 100)` milliseconds, never below 100. -/
theorem level_progression_spec (s : GameState) (fresh : PieceType) :
    (lock_piece s fresh).level = max 1 (1 + (lock_piece s fresh).lines_cleared / 10) ∧
    ((lock_piece s fresh).level ≠ s.level →
      (lock_piece s fresh).drop_interval =
        max 100 (1000 - (((lock_piece s fresh).level : Int) - 1) * 100) ∧
      100 ≤ (lock_piece s fresh).drop_interval) := by
  rw [lock_piece_eq]
  obtain ⟨_, hlv, hli, hdi⟩ := spawn_next_piece_counters
    (on_piece_locked
      { s with board := (clear_full_lines s.board_width s.board_height
          (lock_piece_board s.board_width s.board_height s.board s.current)).1 }
      (lock_cleared s)) fresh
  rw [hlv, hli, hdi]
  constructor
  · exact on_piece_locked_level _ _
  · intro hne
    have hint := on_piece_locked_interval _ (lock_cleared s) hne
    rw [hint]
    exact ⟨rfl, le_max_left _ _⟩

/-- A 4x2 game at 9 cumulative cleared lines: the next single-line clear
reaches 10 and levels up, for the progression witness. -/
def level_witness_state : GameState :=
  { board_width := 4
  , board_height := 2
  , board := [[none, none, none, none], [none, none, none, none]]
  , current := { type := PieceType.I, codes := piece_codes PieceType.I, x := 0, y := 0 }
  , next_piece := TetrisPiece.new PieceType.O
  , score := 0
  , level := 1
  , lines_cleared := 9
  , drop_interval := 1000
  , game_over := false }

/-- Witness: the lock in `level_witness_state` changes the level, so the
level formula and the clamped interval update both apply. -/
theorem level_progression_spec_witness :
    ((lock_piece level_witness_state PieceType.O).level ≠ level_witness_state.level) ∧
    (lock_piece level_witness_state PieceType.O).level =
      max 1 (1 + (lock_piece level_witness_state PieceType.O).lines_cleared / 10) ∧
    (lock_piece level_witness_state PieceType.O).drop_interval =
      max 100 (1000 - (((lock_piece level_witness_state PieceType.O).level : Int) - 1) * 100) ∧
    100 ≤ (lock_piece level_witness_state PieceType.O).drop_interval :=
  ⟨by decide, (level_progression_spec level_witness_state PieceType.O).1,
    ((level_progression_spec level_witness_state PieceType.O).2 (by decide)).1,
    ((level_progression_spec level_witness_state PieceType.O).2 (by decide)).2⟩

/-! ## C5: game over on blocked spawn; game over absorbs all inputs -/

/-- C5: when the queued piece is promoted by `spawn_next_piece` and
collides, the session sets `game_over` and changes nothing else (board,
score, level, line count untouched); and once `game_over` holds, every
mutating operation (tick/`action_move_down`, `action_move_left`,
`action_move_right`, `action_rotate`, `action_hard_drop`) leaves the
whole state unchanged. -/
theorem game_over_spec (s : GameState) (fresh : PieceType) :
    (s.game_over = false →
      check_collision s.board_width s.board_height s.board s.next_piece = true →
      spawn_next_piece s fresh = { s with current := s.next_piece, game_over := true }) ∧
    (s.game_over = true →
      action_move_down s fresh = s ∧ action_move_left s fresh = s ∧
      action_move_right s fresh = s ∧ action_rotate s = s ∧
      action_hard_drop s fresh = s) := by
  constructor
  · intro hg hc
    simp only [spawn_next_piece, hg, Bool.false_eq_true, if_false]
    have hc2 : check_collision s.board_width s.board_height s.board
        ({ s with current := s.next_piece } : GameState).current = true := hc
    rw [if_pos hc2]
  · intro hg
    refine ⟨?_, ?_, ?_, ?_, ?_⟩ <;>
      simp [action_move_down, action_move_left, action_move_right, action_rotate,
        action_hard_drop, hg]

/-- A fresh game whose board already holds a settled cell at `(5, 1)`,
inside the footprint of the spawning O piece. -/
def blocked_spawn_state : GameState :=
  { init_state PieceType.O PieceType.O with
      board := (empty_board 10 20).set 1 ((empty_row 10).set 5 (some "red")) }

/-- A fresh game with the game-over flag raised. -/
def finished_state : GameState :=
  { init_state PieceType.O PieceType.O with game_over := true }

/-- Witness for `game_over_spec`: a blocked spawn flips `game_over`
without touching the board, and a finished game ignores a tick. -/
theorem game_over_spec_witness :
    (blocked_spawn_state.game_over = false ∧
      check_collision blocked_spawn_state.board_width blocked_spawn_state.board_height
        blocked_spawn_state.board blocked_spawn_state.next_piece = true ∧
      spawn_next_piece blocked_spawn_state PieceType.I =
        { blocked_spawn_state with
            current := blocked_spawn_state.next_piece, game_over := true }) ∧
    (finished_state.game_over = true ∧
      action_move_down finished_state PieceType.I = finished_state) :=
  ⟨⟨rfl, by decide,
      (game_over_spec blocked_spawn_state PieceType.I).1 rfl (by decide)⟩,
    rfl, ((game_over_spec finished_state PieceType.I).2 rfl).1⟩

/-! ## C6: rejected rotations and horizontal moves revert completely -/

lemma undo_rotate_rotate (p : TetrisPiece) (h : p.codes ≠ []) :
    p.rotate.undo_rotate = p := by
  unfold TetrisPiece.rotate TetrisPiece.undo_rotate
  have hlen : (p.codes.rotate 1).length = p.codes.length := List.length_rotate _ _
  have hcodes : (p.codes.rotate 1).rotate ((p.codes.rotate 1).length - 1) = p.codes := by
    rw [hlen, List.rotate_rotate]
    have hpos : 1 ≤ p.codes.length := List.length_pos.mpr h
    rw [show 1 + (p.codes.length - 1) = p.codes.length by omega]
    exact List.rotate_length _
  simp only
  rw [hcodes]

/-- C6: a rotation or a non-downward move whose result collides is fully
reverted — the state (piece kind, rotation deque, position, board) is
exactly what it was and no lock happens; only a blocked downward move
(`dy > 0`) triggers the locking path. -/
theorem revert_spec (s : GameState) (fresh : PieceType)
    (hcodes : s.current.codes ≠ []) :
    (check_collision s.board_width s.board_height s.board s.current.rotate = true →
      rotate_piece s = (s, false)) ∧
    (∀ dx dy : Int, dy ≤ 0 →
      check_collision s.board_width s.board_height s.board (s.current.moved dx dy) = true →
      move_piece s fresh dx dy = (s, false)) ∧
    (∀ dx dy : Int, 0 < dy →
      check_collision s.board_width s.board_height s.board (s.current.moved dx dy) = true →
      move_piece s fresh dx dy = (lock_piece s fresh, false)) := by
  refine ⟨fun hc => ?_, fun dx dy hdy hc => ?_, fun dx dy hdy hc => ?_⟩
  · simp only [rotate_piece]
    rw [if_pos hc, undo_rotate_rotate s.current hcodes]
  · simp only [move_piece]
    rw [if_pos hc, if_neg (by omega)]
  · simp only [move_piece]
    rw [if_pos hc, if_pos hdy]

/-- A game with a vertical-clearance-free I piece near the right wall
and the floor: rotating or moving right/down from here collides. -/
def revert_witness_state : GameState :=
  { init_state PieceType.O PieceType.O with
      current := { type := PieceType.I, codes := piece_codes PieceType.I, x := 8, y := 18 } }

/-- Witness for `revert_spec`: on `revert_witness_state` the blocked
rotation and the blocked rightward move return the state unchanged, and
the blocked downward move locks. -/
theorem revert_spec_witness :
    rotate_piece revert_witness_state = (revert_witness_state, false) ∧
    move_piece revert_witness_state PieceType.O 1 0 = (revert_witness_state, false) ∧
    move_piece revert_witness_state PieceType.O 0 1 =
      (lock_piece revert_witness_state PieceType.O, false) :=
  ⟨(revert_spec revert_witness_state PieceType.O (by decide)).1 (by decide),
    (revert_spec revert_witness_state PieceType.O (by decide)).2.1 1 0 (by omega) (by decide),
    (revert_spec revert_witness_state PieceType.O (by decide)).2.2 0 1 (by omega) (by decide)⟩

/-! ## C7: lock writes exactly the in-bounds piece cells -/

lemma getD_set_self {α : Type} (l : List α) (i : Nat) (a d : α) (h : i < l.length) :
    (l.set i a).getD i d = a := by
  conv_lhs => rw [List.getD_eq_getElem?_getD]
  rw [List.getElem?_set_self h]
  rfl

lemma getD_set_ne {α : Type} (l : List α) (i j : Nat) (a d : α) (h : i ≠ j) :
    (l.set i a).getD j d = l.getD j d := by
  conv_lhs => rw [List.getD_eq_getElem?_getD]
  rw [List.getElem?_set_ne h, ← List.getD_eq_getElem?_getD]

lemma getCell_setCell_eq (b : Board) (y x : Nat) (v : Cell)
    (hy : y < b.length) (hx : x < (b.getD y []).length) :
    getCell (setCell b y x v) y x = v := by
  unfold getCell setCell
  rw [getD_set_self b y _ _ hy]
  exact getD_set_self _ x v none hx

lemma getCell_setCell_ne (b : Board) (y x y2 x2 : Nat) (v : Cell)
    (hne : y2 ≠ y ∨ x2 ≠ x) :
    getCell (setCell b y x v) y2 x2 = getCell b y2 x2 := by
  unfold getCell setCell
  by_cases hy : y2 = y
  · subst hy
    have hx : x2 ≠ x := hne.resolve_left (by simp)
    by_cases hylen : y2 < b.length
    · rw [getD_set_self b y2 _ _ hylen]
      exact getD_set_ne _ x x2 v none (Ne.symm hx)
    · rw [List.set_eq_of_length_le (by omega)]
  · rw [getD_set_ne b y y2 _ _ (Ne.symm hy)]

lemma getD_mem_of_lt (b : Board) (y : Nat) (hy : y < b.length) : b.getD y [] ∈ b := by
  rw [List.getD_eq_getElem?_getD, List.getElem?_eq_getElem hy]
  exact List.getElem_mem hy

lemma setCell_dims (b : Board) (y x : Nat) (v : Cell) (w : Nat)
    (hw : ∀ r ∈ b, r.length = w) :
    (setCell b y x v).length = b.length ∧ ∀ r ∈ setCell b y x v, r.length = w := by
  by_cases hylen : y < b.length
  · refine ⟨List.length_set b y _, fun r hr => ?_⟩
    rcases List.mem_or_eq_of_mem_set hr with hr | hr
    · exact hw r hr
    · rw [hr, List.length_set]
      exact hw _ (getD_mem_of_lt b y hylen)
  · unfold setCell
    rw [List.set_eq_of_length_le (by omega)]
    exact ⟨rfl, hw⟩

lemma lock_cells_spec (w h : Nat) (color : String) (L : List (Int × Int)) (b : Board)
    (hb : b.length = h) (hw : ∀ r ∈ b, r.length = w) :
    (lock_cells w h color b L).length = h ∧
    (∀ r ∈ lock_cells w h color b L, r.length = w) ∧
    (∀ q ∈ L, 0 ≤ q.1 → q.1 < (w : Int) → 0 ≤ q.2 → q.2 < (h : Int) →
      getCell (lock_cells w h color b L) q.2.toNat q.1.toNat = some color) ∧
    (∀ x y : Nat, ((x : Int), (y : Int)) ∉ L →
      getCell (lock_cells w h color b L) y x = getCell b y x) := by
  induction L generalizing b with
  | nil => exact ⟨hb, hw, by simp, fun x y _ => rfl⟩
  | cons q L ih =>
    by_cases hcond : 0 ≤ q.1 ∧ q.1 < (w : Int) ∧ 0 ≤ q.2 ∧ q.2 < (h : Int)
    · have hstep : lock_cells w h color b (q :: L) =
          lock_cells w h color (setCell b q.2.toNat q.1.toNat (some color)) L := by
        simp only [lock_cells, List.foldl_cons, if_pos hcond]
      have hdims := setCell_dims b q.2.toNat q.1.toNat (some color) w hw
      obtain ⟨ih1, ih2, ih3, ih4⟩ :=
        ih (setCell b q.2.toNat q.1.toNat (some color)) (hdims.1.trans hb) hdims.2
      rw [hstep]
      obtain ⟨hx0, hxw, hy0, hyh⟩ := hcond
      refine ⟨ih1, ih2, ?_, ?_⟩
      · intro q2 hq2 h1 h2 h3 h4
        rcases List.mem_cons.mp hq2 with hq2 | hq2
        · subst hq2
          by_cases hmem : q2 ∈ L
          · exact ih3 q2 hmem h1 h2 h3 h4
          · have hcast : ((q2.1.toNat : Int), (q2.2.toNat : Int)) = q2 := by
              have e1 : (q2.1.toNat : Int) = q2.1 := Int.toNat_of_nonneg h1
              have e2 : (q2.2.toNat : Int) = q2.2 := Int.toNat_of_nonneg h3
              rw [e1, e2]
            have hfr := ih4 q2.1.toNat q2.2.toNat (by rw [hcast]; exact hmem)
            rw [hfr]
            apply getCell_setCell_eq
            · rw [hb]
              omega
            · rw [hw _ (getD_mem_of_lt b q2.2.toNat (by rw [hb]; omega))]
              omega
        · exact ih3 q2 hq2 h1 h2 h3 h4
      · intro x y hnot
        have hnL : ((x : Int), (y : Int)) ∉ L := fun hc => hnot (List.mem_cons_of_mem _ hc)
        have hnq : ((x : Int), (y : Int)) ≠ q := fun hc => hnot (by rw [hc]; exact List.mem_cons_self _ _)
        rw [ih4 x y hnL]
        apply getCell_setCell_ne
        by_contra hq
        push_neg at hq
        obtain ⟨hy, hx⟩ := hq
        apply hnq
        have e1 : (x : Int) = q.1 := by omega
        have e2 : (y : Int) = q.2 := by omega
        rw [e1, e2]
    · have hstep : lock_cells w h color b (q :: L) = lock_cells w h color b L := by
        simp only [lock_cells, List.foldl_cons, if_neg hcond]
      obtain ⟨ih1, ih2, ih3, ih4⟩ := ih b hb hw
      rw [hstep]
      refine ⟨ih1, ih2, ?_, ?_⟩
      · intro q2 hq2 h1 h2 h3 h4
        rcases List.mem_cons.mp hq2 with hq2 | hq2
        · exact absurd (hq2 ▸ ⟨h1, h2, h3, h4⟩) hcond
        · exact ih3 q2 hq2 h1 h2 h3 h4
      · intro x y hnot
        exact ih4 x y fun hc => hnot (List.mem_cons_of_mem _ hc)

/-- C7: `lock_piece`'s board write puts the piece's color tag into
exactly those board cells that coincide with an absolute cell of the
piece lying within `[0, width) x [0, height)`; out-of-range cells
(including those with `y < 0`) are silently skipped, every other board
cell keeps its previous value, and the grid dimensions are unchanged. -/
theorem lock_piece_board_spec (w h : Nat) (b : Board) (p : TetrisPiece)
    (hb : b.length = h) (hw : ∀ r ∈ b, r.length = w) :
    (∀ q ∈ p.blocks, 0 ≤ q.1 → q.1 < (w : Int) → 0 ≤ q.2 → q.2 < (h : Int) →
      getCell (lock_piece_board w h b p) q.2.toNat q.1.toNat = some (piece_color p.type)) ∧
    (∀ x y : Nat, ((x : Int), (y : Int)) ∉ p.blocks →
      getCell (lock_piece_board w h b p) y x = getCell b y x) ∧
    (lock_piece_board w h b p).length = h ∧
    (∀ r ∈ lock_piece_board w h b p, r.length = w) := by
  obtain ⟨h1, h2, h3, h4⟩ := lock_cells_spec w h (piece_color p.type) p.blocks b hb hw
  exact ⟨h3, h4, h1, h2⟩

/-- Witness for `lock_piece_board_spec`: an O piece straddling the top
edge of a 2x2 board writes its two in-bounds cells, drops its two
cells with `y < 0`, and leaves the untouched cell empty. -/
theorem lock_piece_board_spec_witness :
    getCell (lock_piece_board 2 2 [[none, none], [none, none]]
        { type := PieceType.O, codes := piece_codes PieceType.O, x := -1, y := -2 }) 0 0 =
      some "yellow" ∧
    getCell (lock_piece_board 2 2 [[none, none], [none, none]]
        { type := PieceType.O, codes := piece_codes PieceType.O, x := -1, y := -2 }) 1 0 =
      getCell [[none, none], [none, none]] 1 0 :=
  ⟨(lock_piece_board_spec 2 2 [[none, none], [none, none]]
        { type := PieceType.O, codes := piece_codes PieceType.O, x := -1, y := -2 }
        (by decide) (by decide)).1 (0, 0) (by decide)
      (by decide) (by decide) (by decide) (by decide),
    (lock_piece_board_spec 2 2 [[none, none], [none, none]]
        { type := PieceType.O, codes := piece_codes PieceType.O, x := -1, y := -2 }
        (by decide) (by decide)).2.1 0 1 (by decide)⟩

/-! ## C9: hard drop terminates within the board height and locks -/

lemma moved_zero (p : TetrisPiece) : p.moved 0 0 = p := by
  cases p
  simp [TetrisPiece.moved]

lemma moved_moved (p : TetrisPiece) (dx1 dy1 dx2 dy2 : Int) :
    (p.moved dx1 dy1).moved dx2 dy2 = p.moved (dx1 + dx2) (dy1 + dy2) := by
  cases p
  simp [TetrisPiece.moved]
  constructor <;> ring

lemma moved_down_step (p : TetrisPiece) (n : Nat) :
    (p.moved 0 1).moved 0 (n : Int) = p.moved 0 ((n + 1 : Nat) : Int) := by
  cases p
  simp [TetrisPiece.moved]
  omega

lemma moved_down_step1 (p : TetrisPiece) (k : Nat) :
    (p.moved 0 1).moved 0 ((k : Int) + 1) = p.moved 0 (((k + 1 : Nat) : Int) + 1) := by
  cases p
  simp [TetrisPiece.moved]
  omega

lemma collision_at_floor (w h : Nat) (b : Board) (p : TetrisPiece)
    (hshape : p.shape ≠ []) (hy : 0 ≤ p.y) :
    check_collision w h b (p.moved 0 (h : Int)) = true := by
  obtain ⟨q, hq⟩ := List.exists_mem_of_ne_nil _ hshape
  unfold check_collision
  rw [List.any_eq_true]
  refine ⟨((p.moved 0 (h : Int)).x + (q.1 : Int), (p.moved 0 (h : Int)).y + (q.2 : Int)),
    List.mem_map_of_mem _ hq, ?_⟩
  have hfloor : (h : Int) ≤ (p.moved 0 (h : Int)).y + (q.2 : Int) := by
    show (h : Int) ≤ p.y + (h : Int) + (q.2 : Int)
    have : (0 : Int) ≤ (q.2 : Int) := Int.natCast_nonneg _
    omega
  simp [hfloor]

lemma hard_drop_loop_runs (fresh : PieceType) :
    ∀ (k fuel : Nat) (s : GameState), k < fuel →
      (∀ j : Nat, j ≤ k →
        check_collision s.board_width s.board_height s.board
          (s.current.moved 0 (j : Int)) = false) →
      check_collision s.board_width s.board_height s.board
        (s.current.moved 0 ((k : Int) + 1)) = true →
      hard_drop_loop fuel s fresh =
        lock_piece { s with current := s.current.moved 0 (k : Int) } fresh := by
  intro k
  induction k with
  | zero =>
    intro fuel s hfuel hok hblock
    match fuel, hfuel with
    | f + 1, _ =>
      have hc : check_collision s.board_width s.board_height s.board
          (s.current.moved 0 1) = true := by
        simpa using hblock
      show (if (move_piece s fresh 0 1).2 then
          hard_drop_loop f (move_piece s fresh 0 1).1 fresh
        else (move_piece s fresh 0 1).1) = _
      simp [move_piece, hc]
      rw [moved_zero]
  | succ k ih =>
    intro fuel s hfuel hok hblock
    match fuel, hfuel with
    | f + 1, hfuel =>
      have hstep : check_collision s.board_width s.board_height s.board
          (s.current.moved 0 1) = false := by
        simpa using hok 1 (by omega)
      show (if (move_piece s fresh 0 1).2 then
          hard_drop_loop f (move_piece s fresh 0 1).1 fresh
        else (move_piece s fresh 0 1).1) = _
      simp only [move_piece, hstep, Bool.false_eq_true, if_false]
      have hrec := ih f { s with current := s.current.moved 0 1 } (by omega)
        (fun j hj => by
          show check_collision s.board_width s.board_height s.board
            ((s.current.moved 0 1).moved 0 (j : Int)) = false
          rw [moved_down_step]
          exact hok (j + 1) (by omega))
        (by
          show check_collision s.board_width s.board_height s.board
            ((s.current.moved 0 1).moved 0 ((k : Int) + 1)) = true
          rw [moved_down_step1]
          exact hblock)
      dsimp only at hrec
      rw [moved_down_step] at hrec
      exact hrec

/-- C9: from any non-colliding position of the current piece (spawned
pieces have `y ≥ 0` and a nonempty shape), `action_hard_drop` performs
some number `k < height` of successful one-row descents, the next
descent is blocked, and the result is exactly the lock-and-advance of
the piece moved down by `k` rows. -/
theorem hard_drop_spec (s : GameState) (fresh : PieceType)
    (hg : s.game_over = false)
    (hnc : check_collision s.board_width s.board_height s.board s.current = false)
    (hshape : s.current.shape ≠ [])
    (hy : 0 ≤ s.current.y) :
    ∃ k : Nat, k < s.board_height ∧
      (∀ j : Nat, j ≤ k →
        check_collision s.board_width s.board_height s.board
          (s.current.moved 0 (j : Int)) = false) ∧
      check_collision s.board_width s.board_height s.board
        (s.current.moved 0 ((k : Int) + 1)) = true ∧
      action_hard_drop s fresh =
        lock_piece { s with current := s.current.moved 0 (k : Int) } fresh := by
  have hP : ∃ j : Nat, check_collision s.board_width s.board_height s.board
      (s.current.moved 0 (j : Int)) = true :=
    ⟨s.board_height, collision_at_floor _ _ _ _ hshape hy⟩
  have hjm := Nat.find_spec hP
  have hle : Nat.find hP ≤ s.board_height :=
    Nat.find_le (collision_at_floor _ _ _ _ hshape hy)
  have hpos : 1 ≤ Nat.find hP := by
    by_contra hzero
    have h0 : Nat.find hP = 0 := by omega
    rw [h0] at hjm
    rw [show ((0 : Nat) : Int) = 0 from rfl, moved_zero] at hjm
    rw [hjm] at hnc
    simp at hnc
  refine ⟨Nat.find hP - 1, by omega, ?_, ?_, ?_⟩
  · intro j hj
    have hlt : j < Nat.find hP := by omega
    have := Nat.find_min hP hlt
    exact Bool.eq_false_iff.mpr this
  · have hcast : ((Nat.find hP - 1 : Nat) : Int) + 1 = ((Nat.find hP : Nat) : Int) := by
      omega
    rw [hcast]
    exact hjm
  · unfold action_hard_drop
    rw [if_neg (by simp [hg])]
    exact hard_drop_loop_runs fresh (Nat.find hP - 1) (s.board_height + 1) s (by omega)
      (fun j hj => Bool.eq_false_iff.mpr (Nat.find_min hP (by omega)))
      (by
        have hcast : ((Nat.find hP - 1 : Nat) : Int) + 1 = ((Nat.find hP : Nat) : Int) := by
          omega
        rw [hcast]
        exact hjm)

/-- Witness: hard-dropping the very first piece of a fresh game locks it
after fewer than 20 descents. -/
theorem hard_drop_spec_witness :
    (init_state PieceType.O PieceType.I).game_over = false ∧
    check_collision 10 20 (init_state PieceType.O PieceType.I).board
      (init_state PieceType.O PieceType.I).current = false ∧
    ∃ k : Nat, k < (init_state PieceType.O PieceType.I).board_height ∧
      (∀ j : Nat, j ≤ k →
        check_collision (init_state PieceType.O PieceType.I).board_width
          (init_state PieceType.O PieceType.I).board_height
          (init_state PieceType.O PieceType.I).board
          ((init_state PieceType.O PieceType.I).current.moved 0 (j : Int)) = false) ∧
      check_collision (init_state PieceType.O PieceType.I).board_width
        (init_state PieceType.O PieceType.I).board_height
        (init_state PieceType.O PieceType.I).board
        ((init_state PieceType.O PieceType.I).current.moved 0 ((k : Int) + 1)) = true ∧
      action_hard_drop (init_state PieceType.O PieceType.I) PieceType.I =
        lock_piece
          { init_state PieceType.O PieceType.I with
              current := (init_state PieceType.O PieceType.I).current.moved 0 (k : Int) }
          PieceType.I :=
  ⟨rfl, by decide,
    hard_drop_spec (init_state PieceType.O PieceType.I) PieceType.I rfl (by decide)
      (by decide) (by decide)⟩

/-! ## C10: in every reachable running state the current piece fits -/

/-- The inductive invariant: both piece slots hold genuine 4-state
rotation deques, and while the game is running the current piece sits at
a non-colliding position. -/
def StateInv (s : GameState) : Prop :=
  s.current.codes.length = 4 ∧ s.next_piece.codes.length = 4 ∧
  (s.game_over = false →
    check_collision s.board_width s.board_height s.board s.current = false)

lemma new_piece_codes (t : PieceType) : (TetrisPiece.new t).codes.length = 4 := by
  cases t <;> rfl

lemma init_inv (t1 t2 : PieceType) : StateInv (init_state t1 t2) := by
  refine ⟨new_piece_codes t1, new_piece_codes t2, fun _ => ?_⟩
  show check_collision 10 20 (empty_board 10 20) (TetrisPiece.new t1) = false
  cases t1 <;> decide

lemma spawn_inv (s : GameState) (f : PieceType)
    (hcur : s.current.codes.length = 4) (hnext : s.next_piece.codes.length = 4) :
    StateInv (spawn_next_piece s f) := by
  by_cases hgo : s.game_over = true
  · have hred : spawn_next_piece s f = s := by
      simp [spawn_next_piece, hgo]
    rw [hred]
    exact ⟨hcur, hnext, fun hg => by rw [hg] at hgo; simp at hgo⟩
  · by_cases hc : check_collision s.board_width s.board_height s.board s.next_piece = true
    · have hred : spawn_next_piece s f =
          { s with current := s.next_piece, game_over := true } := by
        simp [spawn_next_piece, hgo, hc]
      rw [hred]
      exact ⟨hnext, hnext, fun hg => by simp at hg⟩
    · have hred : spawn_next_piece s f =
          { s with current := s.next_piece, next_piece := TetrisPiece.new f } := by
        simp [spawn_next_piece, hgo, hc]
      rw [hred]
      exact ⟨hnext, new_piece_codes f, fun _ => Bool.eq_false_iff.mpr hc⟩

lemma on_piece_locked_frame (s : GameState) (c : Nat) :
    (on_piece_locked s c).current = s.current ∧
    (on_piece_locked s c).next_piece = s.next_piece ∧
    (on_piece_locked s c).game_over = s.game_over ∧
    (on_piece_locked s c).board = s.board ∧
    (on_piece_locked s c).board_width = s.board_width ∧
    (on_piece_locked s c).board_height = s.board_height := by
  simp only [on_piece_locked]
  split
  · split
    · exact ⟨rfl, rfl, rfl, rfl, rfl, rfl⟩
    · exact ⟨rfl, rfl, rfl, rfl, rfl, rfl⟩
  · split
    · exact ⟨rfl, rfl, rfl, rfl, rfl, rfl⟩
    · exact ⟨rfl, rfl, rfl, rfl, rfl, rfl⟩

lemma lock_piece_inv (s : GameState) (f : PieceType)
    (hcur : s.current.codes.length = 4) (hnext : s.next_piece.codes.length = 4) :
    StateInv (lock_piece s f) := by
  rw [lock_piece_eq]
  obtain ⟨e1, e2, _, _, _, _⟩ := on_piece_locked_frame
    { s with board := (clear_full_lines s.board_width s.board_height
        (lock_piece_board s.board_width s.board_height s.board s.current)).1 }
    (lock_cleared s)
  exact spawn_inv _ f (by rw [e1]; exact hcur) (by rw [e2]; exact hnext)

lemma move_piece_inv (s : GameState) (f : PieceType) (dx dy : Int)
    (hinv : StateInv s) : StateInv ((move_piece s f dx dy).1) := by
  obtain ⟨hcur, hnext, hcol⟩ := hinv
  by_cases hc : check_collision s.board_width s.board_height s.board
      (s.current.moved dx dy) = true
  · have hred : (move_piece s f dx dy).1 = if dy > 0 then lock_piece s f else s := by
      simp [move_piece, hc]
    rw [hred]
    by_cases hdy : dy > 0
    · rw [if_pos hdy]
      exact lock_piece_inv s f hcur hnext
    · rw [if_neg hdy]
      exact ⟨hcur, hnext, hcol⟩
  · have hred : (move_piece s f dx dy).1 = { s with current := s.current.moved dx dy } := by
      simp [move_piece, hc]
    rw [hred]
    exact ⟨hcur, hnext, fun _ => Bool.eq_false_iff.mpr hc⟩

lemma rotate_piece_inv (s : GameState) (hinv : StateInv s) :
    StateInv ((rotate_piece s).1) := by
  obtain ⟨hcur, hnext, hcol⟩ := hinv
  by_cases hc : check_collision s.board_width s.board_height s.board
      s.current.rotate = true
  · have hne : s.current.codes ≠ [] := by
      intro hnil
      rw [hnil] at hcur
      simp at hcur
    have hred : (rotate_piece s).1 = { s with current := s.current.rotate.undo_rotate } := by
      simp [rotate_piece, hc]
    rw [hred, undo_rotate_rotate s.current hne]
    exact ⟨hcur, hnext, hcol⟩
  · have hred : (rotate_piece s).1 = { s with current := s.current.rotate } := by
      simp [rotate_piece, hc]
    rw [hred]
    refine ⟨?_, hnext, fun _ => Bool.eq_false_iff.mpr hc⟩
    show (s.current.codes.rotate 1).length = 4
    rw [List.length_rotate]
    exact hcur

lemma hard_drop_loop_inv (f : PieceType) :
    ∀ (fuel : Nat) (s : GameState), StateInv s →
      StateInv (hard_drop_loop fuel s f) := by
  intro fuel
  induction fuel with
  | zero => exact fun s hinv => hinv
  | succ n ih =>
    intro s hinv
    show StateInv (if (move_piece s f 0 1).2 then
        hard_drop_loop n (move_piece s f 0 1).1 f
      else (move_piece s f 0 1).1)
    split
    · exact ih _ (move_piece_inv s f 0 1 hinv)
    · exact move_piece_inv s f 0 1 hinv

lemma reachable_inv (s : GameState) (hr : Reachable s) : StateInv s := by
  induction hr with
  | init t1 t2 => exact init_inv t1 t2
  | move_left s f _ ih =>
    unfold action_move_left
    split
    · exact ih
    · exact move_piece_inv s f (-1) 0 ih
  | move_right s f _ ih =>
    unfold action_move_right
    split
    · exact ih
    · exact move_piece_inv s f 1 0 ih
  | move_down s f _ ih =>
    unfold action_move_down
    split
    · exact ih
    · exact move_piece_inv s f 0 1 ih
  | rot s _ ih =>
    unfold action_rotate
    split
    · exact ih
    · exact rotate_piece_inv s ih
  | hard_drop s f _ ih =>
    unfold action_hard_drop
    split
    · exact ih
    · exact hard_drop_loop_inv f (s.board_height + 1) s ih

/-- C10: in every session state reachable from initialization by the
engine's operations, if the game is not over then the current piece is
at a non-colliding position (all cells inside the horizontal bounds and
above the floor, and no overlap with settled cells). -/
theorem reachable_no_collision (s : GameState)
    (hr : Reachable s) (hg : s.game_over = false) :
    check_collision s.board_width s.board_height s.board s.current = false :=
  (reachable_inv s hr).2.2 hg

/-- Witness: the freshly initialized game is reachable, running, and its
current piece does not collide. -/
theorem reachable_no_collision_witness :
    (init_state PieceType.T PieceType.Z).game_over = false ∧
    check_collision (init_state PieceType.T PieceType.Z).board_width
      (init_state PieceType.T PieceType.Z).board_height
      (init_state PieceType.T PieceType.Z).board
      (init_state PieceType.T PieceType.Z).current = false :=
  ⟨rfl, reachable_no_collision (init_state PieceType.T PieceType.Z)
    (Reachable.init PieceType.T PieceType.Z) rfl⟩

end Textris
